import Mathlib

/-!
Verification of the color conversion engine in `src/color-conversion.js`
(repository `a-color`).  Strings are embedded as `List Char`, JavaScript
numbers as `ℚ` on the rational paths (hex, rgb, hsl, hwb, named colors) and
as `ℝ` on the transcendental paths (lch, oklch).  `Option` models values
that are `undefined` / thrown errors / IEEE NaN; places where the NaN
propagation is collapsed are marked in comments and are not exercised by
any theorem below.
-/

namespace CConv

/-- Whitespace test used by the model of `String.prototype.trim`. -/
def jsWs (c : Char) : Bool := c.isWhitespace

/-- Model of `value.trim()`: drop whitespace from both ends. -/
def jsTrim (s : List Char) : List Char :=
  ((s.dropWhile jsWs).reverse.dropWhile jsWs).reverse

/-- Model of `s.startsWith(p)`. -/
def jsStartsWith : List Char → List Char → Bool
  | _, [] => true
  | [], _ :: _ => false
  | c :: cs, p :: ps => c == p && jsStartsWith cs ps

/-- Model of `s.toLowerCase()` (ASCII inputs only, as in the source). -/
def jsLower (s : List Char) : List Char := s.map Char.toLower

/-- Truncation toward zero, as JavaScript applies to a finite double before
integer coercions (`ToInt32`, `%`). -/
def jsTrunc (q : ℚ) : ℤ := if 0 ≤ q then ⌊q⌋ else -⌊-q⌋

/-- Model of `Math.round` on a finite value: floor of `x + 1/2`, which is
exactly the JavaScript rounding rule (half goes up, also for negatives). -/
def jround (q : ℚ) : ℤ := ⌊q + 1 / 2⌋

/-- Model of the JavaScript remainder `a % b` for `b ≠ 0`:
`a - b * trunc(a / b)` (the sign follows the dividend). -/
def jmod (a b : ℚ) : ℚ := a - b * (jsTrunc (a / b) : ℚ)

/-- Model of `ToInt32`: wrap an integer into `[-2^31, 2^31)`. -/
def wrap32 (n : ℤ) : ℤ :=
  let m := n % 4294967296
  if m < 2147483648 then m else m - 4294967296

/-- Model of `ToInt32` on a finite double. -/
def toInt32 (q : ℚ) : ℤ := wrap32 (jsTrunc q)

/-- Model of `ToInt32` where `none` stands for NaN or `undefined`
(both coerce to `0`). -/
def toInt32O : Option ℚ → ℤ
  | none => 0
  | some q => toInt32 q

/-- Model of the JavaScript shift `a << k` applied to an already
32-bit-converted value: multiply and wrap back into 32 bits. -/
def jsShl (n : ℤ) (k : ℕ) : ℤ := wrap32 (n * 2 ^ k)

/-- Value of a decimal digit string (fold as positional digits). -/
def digitsToNat (ds : List Char) : ℕ :=
  ds.foldl (fun a c => 10 * a + (c.toNat - 48)) 0

/-- Value of a single hexadecimal digit character, as `parseInt(-, 16)`
assigns it (`0-9`, `a-f`, `A-F`). -/
def hexCharVal (c : Char) : ℕ :=
  if c.isDigit then c.toNat - 48
  else if 'a' ≤ c && c ≤ 'f' then c.toNat - 87
  else if 'A' ≤ c && c ≤ 'F' then c.toNat - 55
  else 0

/-- Character class accepted by `parseInt(-, 16)`. -/
def isHexDigitCh (c : Char) : Bool :=
  c.isDigit || ('a' ≤ c && c ≤ 'f') || ('A' ≤ c && c ≤ 'F')

/-- Value of a hexadecimal digit string. -/
def hexDigitsToNat (ds : List Char) : ℕ :=
  ds.foldl (fun a c => 16 * a + hexCharVal c) 0

/-- Model of `parseInt(s, 16)` for the non-negative, sign-free,
whitespace-free strings this engine feeds it: parse the maximal leading
run of hex digits, NaN (`none`) when there is none. -/
def jsParseHex16 (s : List Char) : Option ℕ :=
  let ds := s.takeWhile isHexDigitCh
  if ds.isEmpty then none else some (hexDigitsToNat ds)

/-- Digit extraction with fuel, so that the kernel can evaluate it. -/
def hexRenderAux : ℕ → ℕ → List Char
  | 0, _ => []
  | fuel + 1, n =>
    if n < 16 then [Nat.digitChar n]
    else hexRenderAux fuel (n / 16) ++ [Nat.digitChar (n % 16)]

/-- Lowercase hexadecimal rendering of a natural number, as
`Number.prototype.toString(16)` renders a non-negative integer. -/
def hexRender (n : ℕ) : List Char := hexRenderAux (n + 1) n

/-- Digit extraction with fuel, base ten. -/
def decRenderAux : ℕ → ℕ → List Char
  | 0, _ => []
  | fuel + 1, n =>
    if n < 10 then [Nat.digitChar n]
    else decRenderAux fuel (n / 10) ++ [Nat.digitChar (n % 10)]

/-- Decimal rendering of a natural number. -/
def decRender (n : ℕ) : List Char := decRenderAux (n + 1) n

/-- Decimal rendering of an integer (template-literal interpolation of an
integral double). -/
def intDecRender (i : ℤ) : List Char :=
  if i < 0 then '-' :: decRender i.natAbs else decRender i.natAbs

/-- Hexadecimal rendering of an integer (`toString(16)` of an integral
double). -/
def intHexRender (i : ℤ) : List Char :=
  if i < 0 then '-' :: hexRender i.natAbs else hexRender i.natAbs

/-- Hexadecimal digits of the fractional part of a rational in `[0,1)`,
with fuel; models the digits `toString(16)` prints after the point.  The
double's exact digit tail is binary-float specific; no theorem below
evaluates a fractional hex rendering. -/
def fracHexDigits : ℚ → ℕ → List Char
  | _, 0 => []
  | q, fuel + 1 =>
    if q = 0 then []
    else
      let d := ⌊q * 16⌋
      Nat.digitChar d.toNat :: fracHexDigits (q * 16 - (d : ℚ)) fuel

/-- Model of `Number.prototype.toString(16)` on a finite double. -/
def ratHexRender (q : ℚ) : List Char :=
  let sgn : List Char := if q < 0 then ['-'] else []
  let a := |q|
  let ip := ⌊a⌋.toNat
  let fp := a - (⌊a⌋ : ℚ)
  sgn ++ hexRender ip ++ (if fp = 0 then [] else '.' :: fracHexDigits fp 20)

/-- Left-pad with `'0'` to length two: `padStart(2, '0')`. -/
def padStart2 (s : List Char) : List Char :=
  if 2 ≤ s.length then s else List.replicate (2 - s.length) '0' ++ s

/-- Model of `toDoubleHex` from the source:
`(v) => Math.round(v * 255).toString(16).padStart(2, '0')`.
Note there is no clamping here. -/
def toDoubleHex (v : ℚ) : List Char :=
  padStart2 (intHexRender (jround (v * 255)))

/-- Model of `clamp` from the source: `(v) => Math.min(1, Math.max(0, v))`. -/
def clampQ (v : ℚ) : ℚ := min 1 (max 0 v)

/-- Numeric value of one token matched by the regular expression
`/\d+(\.\d+)?/`: integer digits plus optional fractional digits. -/
def numToken (ip fp : List Char) : ℚ :=
  (digitsToNat ip : ℚ) + (digitsToNat fp : ℚ) / (10 : ℚ) ^ fp.length

/-- Length bound for `dropWhile`, used for the scanner's termination. -/
theorem dropWhile_len_le (p : Char → Bool) :
    ∀ l : List Char, (l.dropWhile p).length ≤ l.length := by
  intro l
  induction l with
  | nil => simp [List.dropWhile]
  | cons c cs ih =>
    simp only [List.dropWhile]
    cases p c with
    | true => simp only [List.length_cons]; omega
    | false => simp

/-- Model of `value.match(/\d+(\.\d+)?/g).map(Number)`: scan the string
left to right; each maximal run of digits, optionally followed by a point
and a further nonempty run of digits, yields one number; every other
character is skipped. -/
def scanNumsAux : ℕ → List Char → List ℚ
  | 0, _ => []
  | _, [] => []
  | fuel + 1, c :: cs =>
    if c.isDigit then
      let ds := c :: List.takeWhile Char.isDigit cs
      match List.dropWhile Char.isDigit cs with
      | '.' :: r2 =>
        match List.takeWhile Char.isDigit r2 with
        | [] => numToken ds [] :: scanNumsAux fuel ('.' :: r2)
        | fs => numToken ds fs :: scanNumsAux fuel (List.dropWhile Char.isDigit r2)
      | rest => numToken ds [] :: scanNumsAux fuel rest
    else scanNumsAux fuel cs

/-- Scanner entry point: the input's length is always enough fuel. -/
def scanNums (s : List Char) : List ℚ := scanNumsAux s.length s

/-- Model of the `COLOR_NAMES` table from the source (all 147 entries, in
source order). -/
def COLOR_NAMES : List (List Char × List Char) := [
  (("aliceblue").toList, ("#f0f8ff").toList), (("antiquewhite").toList, ("#faebd7").toList), (("aqua").toList, ("#00ffff").toList),
  (("aquamarine").toList, ("#7fffd4").toList), (("azure").toList, ("#f0ffff").toList), (("beige").toList, ("#f5f5dc").toList),
  (("bisque").toList, ("#ffe4c4").toList), (("black").toList, ("#000000").toList), (("blanchedalmond").toList, ("#ffebcd").toList),
  (("blue").toList, ("#0000ff").toList), (("blueviolet").toList, ("#8a2be2").toList), (("brown").toList, ("#a52a2a").toList),
  (("burlywood").toList, ("#deb887").toList), (("cadetblue").toList, ("#5f9ea0").toList), (("chartreuse").toList, ("#7fff00").toList),
  (("chocolate").toList, ("#d2691e").toList), (("coral").toList, ("#ff7f50").toList), (("cornflowerblue").toList, ("#6495ed").toList),
  (("cornsilk").toList, ("#fff8dc").toList), (("crimson").toList, ("#dc143c").toList), (("cyan").toList, ("#00ffff").toList),
  (("darkblue").toList, ("#00008b").toList), (("darkcyan").toList, ("#008b8b").toList), (("darkgoldenrod").toList, ("#b8860b").toList),
  (("darkgray").toList, ("#a9a9a9").toList), (("darkgreen").toList, ("#006400").toList), (("darkgrey").toList, ("#a9a9a9").toList),
  (("darkkhaki").toList, ("#bdb76b").toList), (("darkmagenta").toList, ("#8b008b").toList), (("darkolivegreen").toList, ("#556b2f").toList),
  (("darkorange").toList, ("#ff8c00").toList), (("darkorchid").toList, ("#9932cc").toList), (("darkred").toList, ("#8b0000").toList),
  (("darksalmon").toList, ("#e9967a").toList), (("darkseagreen").toList, ("#8fbc8f").toList), (("darkslateblue").toList, ("#483d8b").toList),
  (("darkslategray").toList, ("#2f4f4f").toList), (("darkslategrey").toList, ("#2f4f4f").toList), (("darkturquoise").toList, ("#00ced1").toList),
  (("darkviolet").toList, ("#9400d3").toList), (("deeppink").toList, ("#ff1493").toList), (("deepskyblue").toList, ("#00bfff").toList),
  (("dimgray").toList, ("#696969").toList), (("dimgrey").toList, ("#696969").toList), (("dodgerblue").toList, ("#1e90ff").toList),
  (("firebrick").toList, ("#b22222").toList), (("floralwhite").toList, ("#fffaf0").toList), (("forestgreen").toList, ("#228b22").toList),
  (("fuchsia").toList, ("#ff00ff").toList), (("gainsboro").toList, ("#dcdcdc").toList), (("ghostwhite").toList, ("#f8f8ff").toList),
  (("gold").toList, ("#ffd700").toList), (("goldenrod").toList, ("#daa520").toList), (("gray").toList, ("#808080").toList),
  (("green").toList, ("#008000").toList), (("greenyellow").toList, ("#adff2f").toList), (("grey").toList, ("#808080").toList),
  (("honeydew").toList, ("#f0fff0").toList), (("hotpink").toList, ("#ff69b4").toList), (("indianred").toList, ("#cd5c5c").toList),
  (("indigo").toList, ("#4b0082").toList), (("ivory").toList, ("#fffff0").toList), (("khaki").toList, ("#f0e68c").toList),
  (("lavender").toList, ("#e6e6fa").toList), (("lavenderblush").toList, ("#fff0f5").toList), (("lawngreen").toList, ("#7cfc00").toList),
  (("lemonchiffon").toList, ("#fffacd").toList), (("lightblue").toList, ("#add8e6").toList), (("lightcoral").toList, ("#f08080").toList),
  (("lightcyan").toList, ("#e0ffff").toList), (("lightgoldenrodyellow").toList, ("#fafad2").toList), (("lightgray").toList, ("#d3d3d3").toList),
  (("lightgreen").toList, ("#90ee90").toList), (("lightgrey").toList, ("#d3d3d3").toList), (("lightpink").toList, ("#ffb6c1").toList),
  (("lightsalmon").toList, ("#ffa07a").toList), (("lightseagreen").toList, ("#20b2aa").toList), (("lightskyblue").toList, ("#87cefa").toList),
  (("lightslategray").toList, ("#778899").toList), (("lightslategrey").toList, ("#778899").toList), (("lightsteelblue").toList, ("#b0c4de").toList),
  (("lightyellow").toList, ("#ffffe0").toList), (("lime").toList, ("#00ff00").toList), (("limegreen").toList, ("#32cd32").toList),
  (("linen").toList, ("#faf0e6").toList), (("magenta").toList, ("#ff00ff").toList), (("maroon").toList, ("#800000").toList),
  (("mediumaquamarine").toList, ("#66cdaa").toList), (("mediumblue").toList, ("#0000cd").toList), (("mediumorchid").toList, ("#ba55d3").toList),
  (("mediumpurple").toList, ("#9370db").toList), (("mediumseagreen").toList, ("#3cb371").toList), (("mediumslateblue").toList, ("#7b68ee").toList),
  (("mediumspringgreen").toList, ("#00fa9a").toList), (("mediumturquoise").toList, ("#48d1cc").toList), (("mediumvioletred").toList, ("#c71585").toList),
  (("midnightblue").toList, ("#191970").toList), (("mintcream").toList, ("#f5fffa").toList), (("mistyrose").toList, ("#ffe4e1").toList),
  (("moccasin").toList, ("#ffe4b5").toList), (("navajowhite").toList, ("#ffdead").toList), (("navy").toList, ("#000080").toList),
  (("oldlace").toList, ("#fdf5e6").toList), (("olive").toList, ("#808000").toList), (("olivedrab").toList, ("#6b8e23").toList),
  (("orange").toList, ("#ffa500").toList), (("orangered").toList, ("#ff4500").toList), (("orchid").toList, ("#da70d6").toList),
  (("palegoldenrod").toList, ("#eee8aa").toList), (("palegreen").toList, ("#98fb98").toList), (("paleturquoise").toList, ("#afeeee").toList),
  (("palevioletred").toList, ("#db7093").toList), (("papayawhip").toList, ("#ffefd5").toList), (("peachpuff").toList, ("#ffdab9").toList),
  (("peru").toList, ("#cd853f").toList), (("pink").toList, ("#ffc0cb").toList), (("plum").toList, ("#dda0dd").toList),
  (("powderblue").toList, ("#b0e0e6").toList), (("purple").toList, ("#800080").toList), (("red").toList, ("#ff0000").toList),
  (("rosybrown").toList, ("#bc8f8f").toList), (("royalblue").toList, ("#4169e1").toList), (("saddlebrown").toList, ("#8b4513").toList),
  (("salmon").toList, ("#fa8072").toList), (("sandybrown").toList, ("#f4a460").toList), (("seagreen").toList, ("#2e8b57").toList),
  (("seashell").toList, ("#fff5ee").toList), (("sienna").toList, ("#a0522d").toList), (("silver").toList, ("#c0c0c0").toList),
  (("skyblue").toList, ("#87ceeb").toList), (("slateblue").toList, ("#6a5acd").toList), (("slategray").toList, ("#708090").toList),
  (("slategrey").toList, ("#708090").toList), (("snow").toList, ("#fffafa").toList), (("springgreen").toList, ("#00ff7f").toList),
  (("steelblue").toList, ("#4682b4").toList), (("tan").toList, ("#d2b48c").toList), (("teal").toList, ("#008080").toList),
  (("thistle").toList, ("#d8bfd8").toList), (("tomato").toList, ("#ff6347").toList), (("turquoise").toList, ("#40e0d0").toList),
  (("violet").toList, ("#ee82ee").toList), (("wheat").toList, ("#f5deb3").toList), (("white").toList, ("#ffffff").toList),
  (("whitesmoke").toList, ("#f5f5f5").toList), (("yellow").toList, ("#ffff00").toList), (("yellowgreen").toList, ("#9acd32").toList)
]

/-- Model of `getHexToNameMap`: invert the table; when several names share
a hex value the later source entry overwrites the earlier, which is the
first entry of the reversed list. -/
def hexNameMap : List (List Char × List Char) :=
  (COLOR_NAMES.map (fun p => (p.2, p.1))).reverse

/-- Model of `parseHexToRgb`: strip a leading `#`, then read either three
shorthand digits (each duplicated) or `parseInt(hex, 16)` split by shifted
masks; channels are returned in `[0,1]`.  `none` stands for the NaN
channels produced by unparseable digits (a shorthand input with only some
channels parseable is collapsed to `none`; no theorem exercises that). -/
def parseHexToRgb (hex0 : List Char) : Option (ℚ × ℚ × ℚ) :=
  let hex := if jsStartsWith hex0 ['#'] then hex0.drop 1 else hex0
  if hex.length = 3 then
    match hex with
    | [c1, c2, c3] =>
      match jsParseHex16 [c1, c1], jsParseHex16 [c2, c2], jsParseHex16 [c3, c3] with
      | some r, some g, some b => some ((r : ℚ) / 255, (g : ℚ) / 255, (b : ℚ) / 255)
      | _, _, _ => none
    | _ => none
  else
    match jsParseHex16 hex with
    | none => none
    | some val =>
      let w := toInt32 (val : ℚ)
      let r := (w / 65536) % 256
      let g := (w / 256) % 256
      let b := w % 256
      some ((r : ℚ) / 255, (g : ℚ) / 255, (b : ℚ) / 255)

/-- Body of `rgbToHex` after the numeric tokens are extracted: build
`(1 << 24) + (r << 16) + (g << 8) + b` (the blue channel is added without
a shift or 32-bit conversion, exactly as in the source) and render it in
hexadecimal, dropping the leading `1`.  With fewer than three tokens the
missing channels are `undefined`, the unshifted blue sum is NaN and the
rendered, sliced string is `"aN"`. -/
def rgbOfNums : List ℚ → Option (List Char)
  | [] => none
  | r :: g :: b :: _ =>
    some ('#' ::
      (ratHexRender (16777216 + ((jsShl (toInt32 r) 16 : ℤ) : ℚ)
        + ((jsShl (toInt32 g) 8 : ℤ) : ℚ) + b)).drop 1)
  | _ :: _ => some ('#' :: ("aN").toList)

/-- Model of `rgbToHex`. -/
def rgbToHex (value : List Char) : Option (List Char) := rgbOfNums (scanNums value)

/-- Body of `hslToHex` after token extraction: the standard piecewise
formula, channels rendered by `toDoubleHex`.  With one or two tokens the
missing percentages are `undefined`, so every channel is NaN and each
`toDoubleHex` renders `"NaN"`. -/
def hslOfNums : List ℚ → Option (List Char)
  | [] => none
  | h :: s :: l :: _ =>
    let sPct := s / 100
    let lPct := l / 100
    let k : ℚ → ℚ := fun n => jmod (n + h / 30) 12
    let a := sPct * min lPct (1 - lPct)
    let f : ℚ → ℚ := fun n => lPct - a * max (-1) (min (k n - 3) (min (9 - k n) 1))
    some ('#' :: (toDoubleHex (f 0) ++ toDoubleHex (f 8) ++ toDoubleHex (f 4)))
  | _ :: _ => some ('#' :: ("NaNNaNNaN").toList)

/-- Model of `hslToHex`. -/
def hslToHex (value : List Char) : Option (List Char) := hslOfNums (scanNums value)

/-- Decimal digits of a fractional part, with fuel (for template-literal
interpolation of a non-integral double; tail unused by any theorem). -/
def fracDecDigits : ℚ → ℕ → List Char
  | _, 0 => []
  | q, fuel + 1 =>
    if q = 0 then []
    else
      let d := ⌊q * 10⌋
      Nat.digitChar d.toNat :: fracDecDigits (q * 10 - (d : ℚ)) fuel

/-- Decimal rendering of a rational, modeling `${h}` interpolation of a
finite double. -/
def ratDecRender (q : ℚ) : List Char :=
  let sgn : List Char := if q < 0 then ['-'] else []
  let a := |q|
  let ip := ⌊a⌋.toNat
  let fp := a - (⌊a⌋ : ℚ)
  sgn ++ decRender ip ++ (if fp = 0 then [] else '.' :: fracDecDigits fp 20)

/-- Body of `hwbToHex` after token extraction.  The achromatic branch
applies when `w% + b% >= 1`; otherwise the pure hue is obtained by
formatting `hsl(h, 100%, 50%)` and re-parsing the resulting hex (that
inner conversion always yields three tokens, hence always `some`). -/
def hwbOfNums : List ℚ → Option (List Char)
  | [] => none
  | h :: w :: b :: _ =>
    let wPct := w / 100
    let bPct := b / 100
    if 1 ≤ wPct + bPct then
      let gray := wPct / (wPct + bPct)
      some ('#' :: (toDoubleHex gray ++ toDoubleHex gray ++ toDoubleHex gray))
    else
      let rgbStr := (hslToHex (("hsl(").toList ++ ratDecRender h ++ (", 100%, 50%)").toList)).getD []
      match parseHexToRgb rgbStr with
      | some (r, g, bb) =>
        let mix : ℚ → ℚ := fun c => c * (1 - wPct - bPct) + wPct
        some ('#' :: (toDoubleHex (mix r) ++ toDoubleHex (mix g) ++ toDoubleHex (mix bb)))
      | none => some ('#' :: ("NaNNaNNaN").toList)
  | _ :: _ => some ('#' :: ("NaNNaNNaN").toList)

/-- Model of `hwbToHex`. -/
def hwbToHex (value : List Char) : Option (List Char) := hwbOfNums (scanNums value)

/-- Model of `namedColorToHex`: case-insensitive table lookup with the
original string as fallback (`COLOR_NAMES[value.toLowerCase()] || value`). -/
def namedColorToHex (value : List Char) : List Char :=
  (COLOR_NAMES.lookup (jsLower value)).getD value

/-- Model of `hexToRgb`. -/
def hexToRgb (hex : List Char) : List Char :=
  match parseHexToRgb hex with
  | none => ("rgb(NaN, NaN, NaN)").toList
  | some (r, g, b) =>
    ("rgb(").toList ++ intDecRender (jround (r * 255)) ++ (", ").toList ++
      intDecRender (jround (g * 255)) ++ (", ").toList ++
      intDecRender (jround (b * 255)) ++ [')']

/-- Model of `hexToHsl`: max/min channel formula, hue branch chosen by
which channel equals the maximum (red first, as the `switch` does), all
three components rounded to integers at serialization. -/
def hexToHsl (hex : List Char) : List Char :=
  match parseHexToRgb hex with
  | none => ("hsl(NaN, NaN%, NaN%)").toList
  | some (r, g, b) =>
    let mx := max r (max g b)
    let mn := min r (min g b)
    let l := (mx + mn) / 2
    let hs : ℚ × ℚ :=
      if mx = mn then (0, 0)
      else
        let d := mx - mn
        let s := if 1 / 2 < l then d / (2 - mx - mn) else d / (mx + mn)
        let hh := if mx = r then (g - b) / d + (if g < b then 6 else 0)
                  else if mx = g then (b - r) / d + 2
                  else (r - g) / d + 4
        (hh / 6, s)
    ("hsl(").toList ++ intDecRender (jround (hs.1 * 360)) ++ (", ").toList ++
      intDecRender (jround (hs.2 * 100)) ++ ("%, ").toList ++
      intDecRender (jround (l * 100)) ++ ("%)").toList

/-- Model of `hexToHwb` (space-separated serialization). -/
def hexToHwb (hex : List Char) : List Char :=
  match parseHexToRgb hex with
  | none => ("hwb(NaN NaN% NaN%)").toList
  | some (r, g, b) =>
    let mx := max r (max g b)
    let mn := min r (min g b)
    let w := mn
    let bl := 1 - mx
    let hh : ℚ :=
      if mx = mn then 0
      else
        let d := mx - mn
        (if mx = r then (g - b) / d + (if g < b then 6 else 0)
         else if mx = g then (b - r) / d + 2
         else (r - g) / d + 4) / 6
    ("hwb(").toList ++ intDecRender (jround (hh * 360)) ++ [' '] ++
      intDecRender (jround (w * 100)) ++ ("% ").toList ++
      intDecRender (jround (bl * 100)) ++ ("%)").toList

/-- Model of `hexToName`.  The argument is an `Option` so that the absent
(`null`/`undefined`) argument is representable; `none` and the empty
string are the falsy inputs that short-circuit to `"black"`.  A 4-character
input is expanded as shorthand before the reverse lookup; a miss returns
the (lowercased, expanded) hex string itself. -/
def hexToName (hex : Option (List Char)) : List Char :=
  match hex with
  | none => ("black").toList
  | some h0 =>
    if h0 = [] then ("black").toList
    else
      let h1 := jsLower h0
      let h2 := match h1 with
        | [_, b, c, d] => ['#', b, b, c, c, d, d]
        | _ => h1
      (hexNameMap.lookup h2).getD h2


/-- Model of the `sRGB -> linear` helper `linearize` (real-valued). -/
noncomputable def linearizeR (c : ℝ) : ℝ :=
  if c ≤ 0.04045 then c / 12.92 else ((c + 0.055) / 1.055) ^ (2.4 : ℝ)

/-- Model of the gamma encoding used by `lchToHex` and `oklchToHex`. -/
noncomputable def gammaR (v : ℝ) : ℝ :=
  if v ≤ 0.0031308 then 12.92 * v else 1.055 * v ^ ((1 : ℝ) / 2.4) - 0.055

/-- Real-valued `clamp`. -/
noncomputable def clampR (v : ℝ) : ℝ := min 1 (max 0 v)

/-- Real-valued `Math.round`. -/
noncomputable def jroundR (x : ℝ) : ℤ := ⌊x + 1 / 2⌋

/-- Real-valued `toDoubleHex` (used on the perceptual paths). -/
noncomputable def toDoubleHexR (v : ℝ) : List Char :=
  padStart2 (intHexRender (jroundR (v * 255)))

/-- Model of `Math.cbrt` (odd real cube root). -/
noncomputable def cbrtR (x : ℝ) : ℝ :=
  if x < 0 then -((-x) ^ ((1 : ℝ) / 3)) else x ^ ((1 : ℝ) / 3)

/-- Model of `Math.atan2`. -/
noncomputable def atan2R (y x : ℝ) : ℝ :=
  if 0 < x then Real.arctan (y / x)
  else if x < 0 then
    (if 0 ≤ y then Real.arctan (y / x) + Real.pi else Real.arctan (y / x) - Real.pi)
  else if 0 < y then Real.pi / 2
  else if y < 0 then -(Real.pi / 2)
  else 0

/-- Model of `Number.prototype.toFixed(d)` for the finite values this
engine prints: round to `d` decimal places (ties modeled half-up; the
double's binary tie behavior is float-specific and unused by theorems)
and print exactly `d` fractional digits. -/
noncomputable def toFixedR (d : ℕ) (x : ℝ) : List Char :=
  let n : ℤ := ⌊x * (10 : ℝ) ^ d + 1 / 2⌋
  let sgn : List Char := if n < 0 then ['-'] else []
  let m := n.natAbs
  let fr := decRender (m % 10 ^ d)
  sgn ++ decRender (m / 10 ^ d) ++ '.' :: (List.replicate (d - fr.length) '0' ++ fr)

/-- Body of `lchToHex` after token extraction (CIELCH -> sRGB, exactly the
source's constants and piecewise branches). -/
noncomputable def lchRender (l0 c0 h0 : ℚ) : List Char :=
  let l : ℝ := (l0 : ℝ)
  let c : ℝ := (c0 : ℝ)
  let h : ℝ := (h0 : ℝ)
  let rad := h * (Real.pi / 180)
  let a := c * Real.cos rad
  let b := c * Real.sin rad
  let y0 := (l + 16) / 116
  let x0 := a / 500 + y0
  let z0 := y0 - b / 200
  let cube : ℝ → ℝ := fun v => if 0.008856 < v * v * v then v * v * v else (v - 16 / 116) / 7.787
  let x := 95.047 * cube x0
  let y := 100.000 * cube y0
  let z := 108.883 * cube z0
  let r := x * 0.032406 + y * (-0.015372) + z * (-0.004986)
  let g := x * (-0.009689) + y * 0.018758 + z * 0.000415
  let bl := x * 0.000557 + y * (-0.002040) + z * 0.010570
  '#' :: (toDoubleHexR (clampR (gammaR r)) ++ toDoubleHexR (clampR (gammaR g))
    ++ toDoubleHexR (clampR (gammaR bl)))

/-- Dispatch on the extracted tokens for `lchToHex`; `none` models the
exception thrown when the string holds no numeric token at all, and the
NaN hex renders when it holds one or two. -/
noncomputable def lchOfNums : List ℚ → Option (List Char)
  | [] => none
  | l :: c :: h :: _ => some (lchRender l c h)
  | _ :: _ => some ('#' :: ("NaNNaNNaN").toList)

/-- Model of `lchToHex`. -/
noncomputable def lchToHex (value : List Char) : Option (List Char) :=
  lchOfNums (scanNums value)

/-- Body of `oklchToHex` after token extraction (OKLCH -> sRGB with the
source's OKLab matrices). -/
noncomputable def oklchRender (l0 c0 h0 : ℚ) : List Char :=
  let l : ℝ := (l0 : ℝ)
  let c : ℝ := (c0 : ℝ)
  let h : ℝ := (h0 : ℝ)
  let rad := h * (Real.pi / 180)
  let a := c * Real.cos rad
  let b := c * Real.sin rad
  let l_ := l + 0.3963377774 * a + 0.2158037573 * b
  let m_ := l - 0.1055613458 * a - 0.0638541728 * b
  let s_ := l - 0.0894841775 * a - 1.2914855480 * b
  let l3 := l_ * l_ * l_
  let m3 := m_ * m_ * m_
  let s3 := s_ * s_ * s_
  let r := 4.0767416621 * l3 - 3.3077115913 * m3 + 0.2309699292 * s3
  let g := -1.2684380046 * l3 + 2.6097574011 * m3 - 0.3413193965 * s3
  let bl := -0.0041960863 * l3 - 0.7034186147 * m3 + 1.7076147010 * s3
  '#' :: (toDoubleHexR (clampR (gammaR r)) ++ toDoubleHexR (clampR (gammaR g))
    ++ toDoubleHexR (clampR (gammaR bl)))

/-- Dispatch on the extracted tokens for `oklchToHex`. -/
noncomputable def oklchOfNums : List ℚ → Option (List Char)
  | [] => none
  | l :: c :: h :: _ => some (oklchRender l c h)
  | _ :: _ => some ('#' :: ("NaNNaNNaN").toList)

/-- Model of `oklchToHex`. -/
noncomputable def oklchToHex (value : List Char) : Option (List Char) :=
  oklchOfNums (scanNums value)

/-- Model of `hexToLch` (sRGB -> CIELCH with the source's constants). -/
noncomputable def hexToLch (hex : List Char) : List Char :=
  match parseHexToRgb hex with
  | none => ("lch(NaN% NaN NaN)").toList
  | some (r0, g0, b0) =>
    let r := linearizeR (r0 : ℝ)
    let g := linearizeR (g0 : ℝ)
    let b := linearizeR (b0 : ℝ)
    let x0 := (r * 0.4124 + g * 0.3576 + b * 0.1805) * 100
    let y0 := (r * 0.2126 + g * 0.7152 + b * 0.0722) * 100
    let z0 := (r * 0.0193 + g * 0.1192 + b * 0.9505) * 100
    let x1 := x0 / 95.047
    let y1 := y0 / 100.000
    let z1 := z0 / 108.883
    let f : ℝ → ℝ := fun t => if 0.008856 < t then cbrtR t else 7.787 * t + 16 / 116
    let x := f x1
    let y := f y1
    let z := f z1
    let L := 116 * y - 16
    let a := 500 * (x - y)
    let bVal := 200 * (y - z)
    let C := Real.sqrt (a * a + bVal * bVal)
    let H0 := atan2R bVal a * (180 / Real.pi)
    let H := if H0 < 0 then H0 + 360 else H0
    ("lch(").toList ++ toFixedR 2 L ++ ("% ").toList ++ toFixedR 3 C ++ [' '] ++
      toFixedR 2 H ++ [')']

/-- Model of `hexToOklch` (sRGB -> OKLCH with the source's matrices). -/
noncomputable def hexToOklch (hex : List Char) : List Char :=
  match parseHexToRgb hex with
  | none => ("oklch(NaN NaN NaN)").toList
  | some (r0, g0, b0) =>
    let r := linearizeR (r0 : ℝ)
    let g := linearizeR (g0 : ℝ)
    let b := linearizeR (b0 : ℝ)
    let l_ := 0.4122214708 * r + 0.5363325363 * g + 0.0514459929 * b
    let m_ := 0.2119034982 * r + 0.6806995451 * g + 0.1073969566 * b
    let s_ := 0.0883024619 * r + 0.2817188376 * g + 0.6299787005 * b
    let lc := cbrtR l_
    let mc := cbrtR m_
    let sc := cbrtR s_
    let L := 0.2104542553 * lc + 0.7936177850 * mc - 0.0040720468 * sc
    let a := 1.9779984951 * lc - 2.4285922050 * mc + 0.4505937099 * sc
    let bVal := 0.0259040371 * lc + 0.7827717662 * mc - 0.8086757660 * sc
    let C := Real.sqrt (a * a + bVal * bVal)
    let H0 := atan2R bVal a * (180 / Real.pi)
    let H := if H0 < 0 then H0 + 360 else H0
    ("oklch(").toList ++ toFixedR 3 L ++ [' '] ++ toFixedR 3 C ++ [' '] ++
      toFixedR 2 H ++ [')']

/-- Model of `hexTo`: falsy hex or falsy/absent format returns the hex
unchanged; otherwise dispatch on the lowercased format with the identity
fallback of the `switch` default. -/
noncomputable def hexTo (hex : List Char) (format : Option (List Char)) : List Char :=
  if hex = [] then hex
  else
    match format with
    | none => hex
    | some f =>
      if f = [] then hex
      else
        let lf := jsLower f
        if lf = ("rgb").toList then hexToRgb hex
        else if lf = ("hsl").toList then hexToHsl hex
        else if lf = ("hwb").toList then hexToHwb hex
        else if lf = ("lch").toList then hexToLch hex
        else if lf = ("oklch").toList then hexToOklch hex
        else if lf = ("name").toList then hexToName (some hex)
        else hex

/-- Model of `toHex`: `none` for the falsy input (the source logs an error
and returns `undefined`); otherwise trim and dispatch on the literal
prefixes in source order, with the named-color fallback. -/
noncomputable def toHex (value : List Char) : Option (List Char) :=
  if value = [] then none
  else
    let v := jsTrim value
    if jsStartsWith v (("#").toList) then some v
    else if jsStartsWith v (("rgb").toList) then rgbToHex v
    else if jsStartsWith v (("hsl").toList) then hslToHex v
    else if jsStartsWith v (("hwb").toList) then hwbToHex v
    else if jsStartsWith v (("lch").toList) then lchToHex v
    else if jsStartsWith v (("oklch").toList) then oklchToHex v
    else some (namedColorToHex v)


/-- Specification-side predicate: a lowercase hexadecimal digit. -/
def isLowerHexDigit (c : Char) : Bool := c.isDigit || ('a' ≤ c && c ≤ 'f')

/-- Specification-side shape of a canonical hex color: `#` followed by six
lowercase hex digits. -/
def isValidHex6 (s : List Char) : Bool :=
  match s with
  | c :: t => c == '#' && t.length == 6 && t.all isLowerHexDigit
  | [] => false

/-- Two lowercase hex digits of a byte. -/
def hexByte (n : ℕ) : List Char := [Nat.digitChar (n / 16), Nat.digitChar (n % 16)]

/-- The canonical hex string of a byte triple. -/
def hexOf (R G B : ℕ) : List Char := '#' :: (hexByte R ++ hexByte G ++ hexByte B)

/-- Monotone bridge from the character order to code points. -/
theorem char_le_toNat {a c : Char} (h : a ≤ c) : a.toNat ≤ c.toNat := by
  simpa [Char.le_def, UInt32.le_def, BitVec.le_def, Char.toNat, UInt32.toNat] using h

/-- Code-point bounds of a decimal digit character. -/
theorem isDigit_toNat {c : Char} (h : c.isDigit = true) :
    48 ≤ c.toNat ∧ c.toNat ≤ 57 := by
  simp only [Char.isDigit, Bool.and_eq_true, decide_eq_true_eq, ge_iff_le] at h
  obtain ⟨h1, h2⟩ := h
  constructor
  · simpa [UInt32.le_def, BitVec.le_def, Char.toNat, UInt32.toNat] using h1
  · simpa [UInt32.le_def, BitVec.le_def, Char.toNat, UInt32.toNat] using h2

/-- Every digit value below 16 renders to a lowercase hex digit. -/
theorem digitChar_lowerHex {k : ℕ} (h : k < 16) :
    isLowerHexDigit (Nat.digitChar k) = true := by
  interval_cases k <;> decide

/-- Every digit value below 16 renders to a character `parseInt` accepts. -/
theorem digitChar_hexCh {k : ℕ} (h : k < 16) :
    isHexDigitCh (Nat.digitChar k) = true := by
  interval_cases k <;> decide

/-- Parsing inverts rendering on single hex digits. -/
theorem hexCharVal_digitChar {k : ℕ} (h : k < 16) :
    hexCharVal (Nat.digitChar k) = k := by
  interval_cases k <;> decide

/-- Decimal digit characters are digits. -/
theorem digitChar_isDigit {k : ℕ} (h : k < 10) :
    (Nat.digitChar k).isDigit = true := by
  interval_cases k <;> decide

/-- Decimal digit value inverts rendering. -/
theorem digitChar_decVal {k : ℕ} (h : k < 10) :
    (Nat.digitChar k).toNat - 48 = k := by
  interval_cases k <;> decide

/-- Hex digit characters are not whitespace. -/
theorem digitChar_not_ws {k : ℕ} (h : k < 16) :
    jsWs (Nat.digitChar k) = false := by
  interval_cases k <;> decide

/-- A lowercase hex digit is the rendering of its own value. -/
theorem lowerHex_inv {c : Char} (h : isLowerHexDigit c = true) :
    hexCharVal c < 16 ∧ Nat.digitChar (hexCharVal c) = c := by
  have hofn := Char.ofNat_toNat c
  simp only [isLowerHexDigit, Bool.or_eq_true, Bool.and_eq_true, decide_eq_true_eq] at h
  rcases h with hd | ⟨ha, hf⟩
  · obtain ⟨h1, h2⟩ := isDigit_toNat hd
    interval_cases hn : c.toNat <;> (rw [← hofn]; decide)
  · have h1 : 97 ≤ c.toNat := char_le_toNat ha
    have h2 : c.toNat ≤ 102 := char_le_toNat hf
    interval_cases hn : c.toNat <;> (rw [← hofn]; decide)

/-- Shape characterization of the canonical hex strings: they are exactly
the renderings of byte triples. -/
theorem validHex6_iff (H : List Char) :
    isValidHex6 H = true ↔
      ∃ R G B : ℕ, R < 256 ∧ G < 256 ∧ B < 256 ∧ H = hexOf R G B := by
  constructor
  · intro h
    match H with
    | [] => exact absurd h (by decide)
    | c :: t =>
      simp only [isValidHex6, Bool.and_eq_true, beq_iff_eq, List.all_eq_true] at h
      obtain ⟨⟨hc, hlen⟩, hall⟩ := h
      subst hc
      match t, hlen with
      | [c1, c2, c3, c4, c5, c6], _ =>
        have e1 := lowerHex_inv (hall c1 (by simp))
        have e2 := lowerHex_inv (hall c2 (by simp))
        have e3 := lowerHex_inv (hall c3 (by simp))
        have e4 := lowerHex_inv (hall c4 (by simp))
        have e5 := lowerHex_inv (hall c5 (by simp))
        have e6 := lowerHex_inv (hall c6 (by simp))
        refine ⟨16 * hexCharVal c1 + hexCharVal c2,
                16 * hexCharVal c3 + hexCharVal c4,
                16 * hexCharVal c5 + hexCharVal c6, by omega, by omega, by omega, ?_⟩
        simp only [hexOf, hexByte]
        have d1 : (16 * hexCharVal c1 + hexCharVal c2) / 16 = hexCharVal c1 := by omega
        have d2 : (16 * hexCharVal c1 + hexCharVal c2) % 16 = hexCharVal c2 := by omega
        have d3 : (16 * hexCharVal c3 + hexCharVal c4) / 16 = hexCharVal c3 := by omega
        have d4 : (16 * hexCharVal c3 + hexCharVal c4) % 16 = hexCharVal c4 := by omega
        have d5 : (16 * hexCharVal c5 + hexCharVal c6) / 16 = hexCharVal c5 := by omega
        have d6 : (16 * hexCharVal c5 + hexCharVal c6) % 16 = hexCharVal c6 := by omega
        rw [d1, d2, d3, d4, d5, d6, e1.2, e2.2, e3.2, e4.2, e5.2, e6.2]
        rfl
  · rintro ⟨R, G, B, hR, hG, hB, rfl⟩
    simp only [isValidHex6, hexOf, hexByte, Bool.and_eq_true, beq_iff_eq, List.all_eq_true]
    refine ⟨⟨by simp, by simp⟩, ?_⟩
    intro c hc
    simp only [List.cons_append, List.nil_append, List.mem_cons, List.not_mem_nil, or_false] at hc
    rcases hc with rfl | rfl | rfl | rfl | rfl | rfl <;>
      exact digitChar_lowerHex (by omega)


/-- Fuel does not matter for the decimal renderer once it exceeds `n`. -/
theorem decRenderAux_irrel (n : ℕ) :
    ∀ f1 f2, n < f1 → n < f2 → decRenderAux f1 n = decRenderAux f2 n := by
  induction n using Nat.strong_induction_on with
  | _ n ih =>
    intro f1 f2 h1 h2
    obtain ⟨g1, rfl⟩ : ∃ g, f1 = g + 1 := ⟨f1 - 1, by omega⟩
    obtain ⟨g2, rfl⟩ : ∃ g, f2 = g + 1 := ⟨f2 - 1, by omega⟩
    simp only [decRenderAux]
    by_cases hn : n < 10
    · simp [hn]
    · simp only [if_neg hn]
      rw [ih (n / 10) (by omega) g1 g2 (by omega) (by omega)]

/-- One-digit rendering. -/
theorem decRender_lt {n : ℕ} (h : n < 10) : decRender n = [Nat.digitChar n] := by
  simp [decRender, decRenderAux, h]

/-- Unfolding step of the decimal renderer. -/
theorem decRender_step {n : ℕ} (h : 10 ≤ n) :
    decRender n = decRender (n / 10) ++ [Nat.digitChar (n % 10)] := by
  show decRenderAux (n + 1) n = _
  simp only [decRenderAux, if_neg (by omega : ¬ n < 10)]
  rw [decRenderAux_irrel (n / 10) n (n / 10 + 1) (by omega) (by omega)]
  rfl

/-- The decimal rendering is never empty. -/
theorem decRender_ne_nil (n : ℕ) : decRender n ≠ [] := by
  by_cases h : n < 10
  · simp [decRender_lt h]
  · simp [decRender_step (by omega : 10 ≤ n)]

/-- Every character of a decimal rendering is a digit. -/
theorem decRender_all_digit (n : ℕ) : ∀ c ∈ decRender n, c.isDigit = true := by
  induction n using Nat.strong_induction_on with
  | _ n ih =>
    by_cases h : n < 10
    · simp only [decRender_lt h, List.mem_singleton]
      rintro c rfl
      exact digitChar_isDigit h
    · rw [decRender_step (by omega)]
      intro c hc
      rcases List.mem_append.mp hc with hc | hc
      · exact ih (n / 10) (by omega) c hc
      · simp only [List.mem_singleton] at hc
        subst hc
        exact digitChar_isDigit (by omega)

/-- Parsing a decimal rendering returns the value. -/
theorem digitsToNat_decRender (n : ℕ) : digitsToNat (decRender n) = n := by
  induction n using Nat.strong_induction_on with
  | _ n ih =>
    by_cases h : n < 10
    · rw [decRender_lt h]
      simp only [digitsToNat, List.foldl, Nat.mul_zero, Nat.zero_add]
      exact digitChar_decVal h
    · rw [decRender_step (by omega)]
      simp only [digitsToNat, List.foldl_append, List.foldl]
      have hrec := ih (n / 10) (by omega)
      simp only [digitsToNat] at hrec
      rw [hrec, digitChar_decVal (by omega : n % 10 < 10)]
      omega

/-- Fuel does not matter for the hexadecimal renderer either. -/
theorem hexRenderAux_irrel (n : ℕ) :
    ∀ f1 f2, n < f1 → n < f2 → hexRenderAux f1 n = hexRenderAux f2 n := by
  induction n using Nat.strong_induction_on with
  | _ n ih =>
    intro f1 f2 h1 h2
    obtain ⟨g1, rfl⟩ : ∃ g, f1 = g + 1 := ⟨f1 - 1, by omega⟩
    obtain ⟨g2, rfl⟩ : ∃ g, f2 = g + 1 := ⟨f2 - 1, by omega⟩
    simp only [hexRenderAux]
    by_cases hn : n < 16
    · simp [hn]
    · simp only [if_neg hn]
      rw [ih (n / 16) (by omega) g1 g2 (by omega) (by omega)]

/-- One-digit hexadecimal rendering. -/
theorem hexRender_lt {n : ℕ} (h : n < 16) : hexRender n = [Nat.digitChar n] := by
  simp [hexRender, hexRenderAux, h]

/-- Unfolding step of the hexadecimal renderer. -/
theorem hexRender_step {n : ℕ} (h : 16 ≤ n) :
    hexRender n = hexRender (n / 16) ++ [Nat.digitChar (n % 16)] := by
  show hexRenderAux (n + 1) n = _
  simp only [hexRenderAux, if_neg (by omega : ¬ n < 16)]
  rw [hexRenderAux_irrel (n / 16) n (n / 16 + 1) (by omega) (by omega)]
  rfl

/-- The hexadecimal rendering of a byte has at most two characters. -/
theorem hexRender_byte_len {n : ℕ} (h : n < 256) : (hexRender n).length ≤ 2 := by
  by_cases h16 : n < 16
  · simp [hexRender_lt h16]
  · rw [hexRender_step (by omega), hexRender_lt (by omega : n / 16 < 16)]
    simp

/-- Every character of a hexadecimal rendering is a lowercase hex digit. -/
theorem hexRender_all_lower (n : ℕ) :
    ∀ c ∈ hexRender n, isLowerHexDigit c = true := by
  induction n using Nat.strong_induction_on with
  | _ n ih =>
    by_cases h : n < 16
    · simp only [hexRender_lt h, List.mem_singleton]
      rintro c rfl
      exact digitChar_lowerHex h
    · rw [hexRender_step (by omega)]
      intro c hc
      rcases List.mem_append.mp hc with hc | hc
      · exact ih (n / 16) (by omega) c hc
      · simp only [List.mem_singleton] at hc
        subst hc
        exact digitChar_lowerHex (by omega)

/-- The hexadecimal rendering is never empty. -/
theorem hexRender_ne_nil (n : ℕ) : hexRender n ≠ [] := by
  by_cases h : n < 16
  · simp [hexRender_lt h]
  · simp [hexRender_step (by omega : 16 ≤ n)]

/-- Length of the padded two-digit rendering. -/
theorem padStart2_length {s : List Char} (h : s.length ≤ 2) :
    (padStart2 s).length = 2 := by
  unfold padStart2
  by_cases h2 : 2 ≤ s.length
  · simp only [if_pos h2]
    omega
  · simp only [if_neg h2, List.length_append, List.length_replicate]
    omega

/-- `takeWhile` keeps a list all of whose elements satisfy the test. -/
theorem takeWhile_all {p : Char → Bool} :
    ∀ l : List Char, (∀ c ∈ l, p c = true) → l.takeWhile p = l := by
  intro l
  induction l with
  | nil => intro _; rfl
  | cons c cs ih =>
    intro h
    simp only [List.takeWhile, h c (by simp)]
    rw [ih (fun d hd => h d (by simp [hd]))]

/-- Splitting of `takeWhile`/`dropWhile` at the boundary of a satisfying
run. -/
theorem scan_split {p : Char → Bool} :
    ∀ (l r : List Char), (∀ c ∈ l, p c = true) →
      (∀ c t, r = c :: t → p c = false) →
      (l ++ r).takeWhile p = l ∧ (l ++ r).dropWhile p = r := by
  intro l
  induction l with
  | nil =>
    intro r _ hr
    match r with
    | [] => exact ⟨rfl, rfl⟩
    | c :: t =>
      constructor
      · simp [List.takeWhile_cons, hr c t rfl]
      · simp [List.dropWhile_cons, hr c t rfl]
  | cons c cs ih =>
    intro r hl hr
    have hc : p c = true := hl c (by simp)
    have hrest := ih r (fun d hd => hl d (by simp [hd])) hr
    constructor
    · simp only [List.cons_append, List.takeWhile_cons, hc, if_true]
      rw [hrest.1]
    · simp only [List.cons_append, List.dropWhile_cons, hc, if_true]
      exact hrest.2


/-- The scanner consumes no fuel on the empty string. -/
theorem scanAux_nil : ∀ f, scanNumsAux f [] = [] := by
  intro f
  cases f <;> rfl

/-- Scanner step on a non-digit head: skip it. -/
theorem scanAux_step_nondigit (f : ℕ) (c : Char) (cs : List Char)
    (h : c.isDigit = false) : scanNumsAux (f + 1) (c :: cs) = scanNumsAux f cs := by
  simp [scanNumsAux, h]

/-- Scanner step on a digit head whose run is followed by the end of the
string. -/
theorem scanAux_step_digit_nil (f : ℕ) (c : Char) (cs : List Char)
    (hd : c.isDigit = true) (hdw : List.dropWhile Char.isDigit cs = []) :
    scanNumsAux (f + 1) (c :: cs) =
      numToken (c :: List.takeWhile Char.isDigit cs) [] :: scanNumsAux f [] := by
  simp only [scanNumsAux, if_pos hd, hdw]

/-- Scanner step on a digit head whose run is followed by a character that
is not a point. -/
theorem scanAux_step_digit_rest (f : ℕ) (c : Char) (cs : List Char) (r : Char)
    (rs : List Char) (hd : c.isDigit = true)
    (hdw : List.dropWhile Char.isDigit cs = r :: rs) (hr : r ≠ '.') :
    scanNumsAux (f + 1) (c :: cs) =
      numToken (c :: List.takeWhile Char.isDigit cs) [] :: scanNumsAux f (r :: rs) := by
  simp only [scanNumsAux, if_pos hd, hdw]
  split
  · next r2 heq =>
    exact absurd (List.head_eq_of_cons_eq heq.symm).symm hr
  · rfl

/-- Scanner step on a digit run followed by a point with no digit after
it: the point is not part of the token. -/
theorem scanAux_step_dot_nofrac (f : ℕ) (c : Char) (cs rs : List Char)
    (hd : c.isDigit = true) (hdw : List.dropWhile Char.isDigit cs = '.' :: rs)
    (hfs : List.takeWhile Char.isDigit rs = []) :
    scanNumsAux (f + 1) (c :: cs) =
      numToken (c :: List.takeWhile Char.isDigit cs) [] :: scanNumsAux f ('.' :: rs) := by
  simp only [scanNumsAux, if_pos hd, hdw, hfs]

/-- Scanner step on a digit run followed by a point and further digits:
one fractional token. -/
theorem scanAux_step_dot_frac (f : ℕ) (c : Char) (cs rs : List Char) (x : Char)
    (xs : List Char) (hd : c.isDigit = true)
    (hdw : List.dropWhile Char.isDigit cs = '.' :: rs)
    (hfs : List.takeWhile Char.isDigit rs = x :: xs) :
    scanNumsAux (f + 1) (c :: cs) =
      numToken (c :: List.takeWhile Char.isDigit cs) (x :: xs) ::
        scanNumsAux f (List.dropWhile Char.isDigit rs) := by
  simp only [scanNumsAux, if_pos hd, hdw, hfs]


/-- Any sufficient fuel computes the canonical scan. -/
theorem scanAux_eq :
    ∀ (n f : ℕ) (s : List Char), f ≤ n → s.length ≤ f →
      scanNumsAux f s = scanNums s := by
  intro n
  induction n with
  | zero =>
    intro f s hf hs
    have : s = [] := by
      cases s
      · rfl
      · simp at hs; omega
    subst this
    rw [scanAux_nil]
    rfl
  | succ n ih =>
    intro f s hf hs
    match s with
    | [] => rw [scanAux_nil]; rfl
    | c :: cs =>
      have hlen : cs.length + 1 = (c :: cs).length := rfl
      obtain ⟨g, rfl⟩ : ∃ g, f = g + 1 := ⟨f - 1, by simp at hs; omega⟩
      have hcs : cs.length ≤ g := by simp at hs; omega
      have hgn : g ≤ n := by omega
      have hcn : cs.length ≤ n := le_trans hcs hgn
      show scanNumsAux (g + 1) (c :: cs) = scanNumsAux (cs.length + 1) (c :: cs)
      by_cases hd : c.isDigit = true
      · cases hdw : List.dropWhile Char.isDigit cs with
        | nil =>
          rw [scanAux_step_digit_nil g c cs hd hdw,
              scanAux_step_digit_nil cs.length c cs hd hdw, scanAux_nil, scanAux_nil]
        | cons r rs =>
          have hrlen : (r :: rs).length ≤ cs.length := by
            rw [← hdw]; exact dropWhile_len_le Char.isDigit cs
          by_cases hr : r = '.'
          · subst hr
            cases hfs : List.takeWhile Char.isDigit rs with
            | nil =>
              rw [scanAux_step_dot_nofrac g c cs rs hd hdw hfs,
                  scanAux_step_dot_nofrac cs.length c cs rs hd hdw hfs]
              congr 1
              rw [ih g ('.' :: rs) hgn (by simp at hrlen ⊢; omega),
                  ih cs.length ('.' :: rs) hcn (by simpa using hrlen)]
            | cons x xs =>
              rw [scanAux_step_dot_frac g c cs rs x xs hd hdw hfs,
                  scanAux_step_dot_frac cs.length c cs rs x xs hd hdw hfs]
              congr 1
              have hlen2 : (List.dropWhile Char.isDigit rs).length ≤ rs.length :=
                dropWhile_len_le Char.isDigit rs
              have hb : (List.dropWhile Char.isDigit rs).length ≤ cs.length := by
                simp at hrlen; omega
              rw [ih g (List.dropWhile Char.isDigit rs) hgn (le_trans hb hcs),
                  ih cs.length (List.dropWhile Char.isDigit rs) hcn hb]
          · rw [scanAux_step_digit_rest g c cs r rs hd hdw hr,
                scanAux_step_digit_rest cs.length c cs r rs hd hdw hr]
            congr 1
            rw [ih g (r :: rs) hgn (le_trans hrlen hcs),
                ih cs.length (r :: rs) hcn hrlen]
      · have hd' : c.isDigit = false := by simpa using hd
        rw [scanAux_step_nondigit g c cs hd', scanAux_step_nondigit cs.length c cs hd']
        rw [ih g cs hgn hcs, ih cs.length cs hcn (le_refl _)]

/-- Canonical equations of the scanner: empty string. -/
theorem scanNums_nil : scanNums [] = [] := rfl

/-- Canonical equations of the scanner: skip one non-digit. -/
theorem scanNums_cons_nondigit {c : Char} (cs : List Char)
    (h : c.isDigit = false) : scanNums (c :: cs) = scanNums cs := by
  show scanNumsAux (cs.length + 1) (c :: cs) = scanNums cs
  rw [scanAux_step_nondigit cs.length c cs h]
  exact scanAux_eq cs.length cs.length cs (le_refl _) (le_refl _)

/-- Skip a whole run of non-digit characters. -/
theorem scanNums_skip (p : List Char) (s : List Char)
    (hp : ∀ c ∈ p, c.isDigit = false) : scanNums (p ++ s) = scanNums s := by
  induction p with
  | nil => rfl
  | cons c cs ih =>
    rw [List.cons_append, scanNums_cons_nondigit _ (hp c (by simp))]
    exact ih (fun d hd => hp d (by simp [hd]))

/-- Scanning an all-digit run followed by nothing, or by a character that
is neither a digit nor a point, yields the run's value and continues. -/
theorem scanNums_token (ds rest : List Char) (h1 : ds ≠ [])
    (h2 : ∀ c ∈ ds, c.isDigit = true)
    (h3 : ∀ c t, rest = c :: t → c.isDigit = false ∧ c ≠ '.') :
    scanNums (ds ++ rest) = (digitsToNat ds : ℚ) :: scanNums rest := by
  match ds with
  | d :: ds2 =>
    have hd : d.isDigit = true := h2 d (by simp)
    have hsplit := scan_split (p := Char.isDigit) ds2 rest
      (fun c hc => h2 c (by simp [hc]))
      (fun c t ht => (h3 c t ht).1)
    have htok : numToken (d :: ds2) [] = (digitsToNat (d :: ds2) : ℚ) := by
      simp [numToken, digitsToNat]
    cases rest with
    | nil =>
      show scanNumsAux (((d :: ds2) ++ ([] : List Char)).length)
        ((d :: ds2) ++ ([] : List Char)) = _
      rw [show ((d :: ds2) ++ ([] : List Char)).length
            = (ds2 ++ ([] : List Char)).length + 1 from by simp,
          List.cons_append,
          scanAux_step_digit_nil _ d (ds2 ++ []) hd hsplit.2,
          hsplit.1, htok, scanAux_nil]
      rfl
    | cons r t =>
      have hr := h3 r t rfl
      show scanNumsAux (((d :: ds2) ++ (r :: t)).length) ((d :: ds2) ++ (r :: t)) = _
      rw [show ((d :: ds2) ++ (r :: t)).length = (ds2 ++ (r :: t)).length + 1 from by simp,
          List.cons_append,
          scanAux_step_digit_rest _ d (ds2 ++ (r :: t)) r t hd hsplit.2 hr.2,
          hsplit.1, htok]
      congr 1
      have hb : (r :: t).length ≤ (ds2 ++ (r :: t)).length := by simp
      exact scanAux_eq (ds2 ++ (r :: t)).length (ds2 ++ (r :: t)).length (r :: t)
        (le_refl _) hb


/-- `dropWhile` is the identity when the head fails the test. -/
theorem dropWhile_eq_self_of_head {s : List Char}
    (h : ∀ c t, s = c :: t → jsWs c = false) : s.dropWhile jsWs = s := by
  cases s with
  | nil => rfl
  | cons c t => simp [List.dropWhile_cons, h c t rfl]

/-- Trimming a string with non-whitespace first and last characters is the
identity. -/
theorem jsTrim_eq_self {s : List Char}
    (h1 : ∀ c t, s = c :: t → jsWs c = false)
    (h2 : ∀ c t, s.reverse = c :: t → jsWs c = false) : jsTrim s = s := by
  unfold jsTrim
  rw [dropWhile_eq_self_of_head h1, dropWhile_eq_self_of_head h2, List.reverse_reverse]

/-- Truncation of a natural number. -/
theorem jsTrunc_natCast (n : ℕ) : jsTrunc (n : ℚ) = n := by
  unfold jsTrunc
  rw [if_pos (by positivity)]
  exact Int.floor_natCast n

/-- `ToInt32` is the identity below `2^31`. -/
theorem toInt32_natCast {n : ℕ} (h : n < 2147483648) : toInt32 (n : ℚ) = n := by
  unfold toInt32 wrap32
  rw [jsTrunc_natCast]
  dsimp only
  split_ifs <;> omega

/-- A small non-negative shift by 16 is plain multiplication. -/
theorem jsShl16 {n : ℤ} (h0 : 0 ≤ n) (h : n < 32768) : jsShl n 16 = n * 65536 := by
  unfold jsShl wrap32
  dsimp only
  have he : n * 2 ^ 16 % 4294967296 = n * 65536 := by
    rw [show (2 : ℤ) ^ 16 = 65536 from by norm_num,
        Int.emod_eq_of_lt (by positivity) (by omega)]
  rw [he, if_pos (by omega)]

/-- A small non-negative shift by 8 is plain multiplication. -/
theorem jsShl8 {n : ℤ} (h0 : 0 ≤ n) (h : n < 8388608) : jsShl n 8 = n * 256 := by
  unfold jsShl wrap32
  dsimp only
  have he : n * 2 ^ 8 % 4294967296 = n * 256 := by
    rw [show (2 : ℤ) ^ 8 = 256 from by norm_num,
        Int.emod_eq_of_lt (by positivity) (by omega)]
  rw [he, if_pos (by omega)]

/-- Rounding a natural number returns it. -/
theorem jround_natCast (n : ℕ) : jround (n : ℚ) = n := by
  unfold jround
  rw [show ((n : ℚ) + 1 / 2) = ((n : ℤ) : ℚ) + (1 / 2 : ℚ) from by push_cast; ring,
      Int.floor_int_add]
  norm_num

/-- The hexadecimal rendering of an integral double is the natural
rendering. -/
theorem ratHexRender_natCast (m : ℕ) : ratHexRender ((m : ℕ) : ℚ) = hexRender m := by
  simp only [ratHexRender]
  rw [if_neg (not_lt.mpr (by positivity : (0 : ℚ) ≤ (m : ℚ))),
      abs_of_nonneg (by positivity : (0 : ℚ) ≤ (m : ℚ)), Int.floor_natCast]
  simp

/-- Decimal rendering of a non-negative integer. -/
theorem intDecRender_natCast (n : ℕ) : intDecRender ((n : ℕ) : ℤ) = decRender n := by
  unfold intDecRender
  rw [if_neg (by omega : ¬((n : ℕ) : ℤ) < 0)]
  simp

/-- Positional fold for hex digit strings. -/
theorem hexFold (l : List Char) :
    ∀ i : ℕ, List.foldl (fun a c => 16 * a + hexCharVal c) i l
      = i * 16 ^ l.length + hexDigitsToNat l := by
  induction l with
  | nil => intro i; simp [hexDigitsToNat]
  | cons c cs ih =>
    intro i
    have hc : hexDigitsToNat (c :: cs)
        = hexCharVal c * 16 ^ cs.length + hexDigitsToNat cs := by
      show List.foldl _ (16 * 0 + hexCharVal c) cs = _
      rw [ih]
      ring_nf
    simp only [List.foldl, hc, List.length_cons]
    rw [ih]
    ring
/-- A byte's two hex digits parse back to the byte. -/
theorem hexDigitsToNat_hexByte {n : ℕ} (h : n < 256) :
    hexDigitsToNat (hexByte n) = n := by
  show List.foldl _ 0 [_, _] = n
  simp only [List.foldl]
  rw [hexCharVal_digitChar (by omega : n / 16 < 16),
      hexCharVal_digitChar (by omega : n % 16 < 16)]
  omega

/-- The full 24-bit value with the sentinel bit renders to `1` followed by
the six digits of the three bytes. -/
theorem hexRender_rgb {R G B : ℕ} (hR : R < 256) (hG : G < 256) (hB : B < 256) :
    hexRender (16777216 + (R * 65536 + (G * 256 + B)))
      = '1' :: (hexByte R ++ hexByte G ++ hexByte B) := by
  rw [hexRender_step (by omega),
      show (16777216 + (R * 65536 + (G * 256 + B))) / 16
        = 1048576 + R * 4096 + G * 16 + B / 16 from by omega,
      show (16777216 + (R * 65536 + (G * 256 + B))) % 16 = B % 16 from by omega]
  rw [hexRender_step (by omega),
      show (1048576 + R * 4096 + G * 16 + B / 16) / 16
        = 65536 + R * 256 + G from by omega,
      show (1048576 + R * 4096 + G * 16 + B / 16) % 16 = B / 16 from by omega]
  rw [hexRender_step (by omega),
      show (65536 + R * 256 + G) / 16 = 4096 + R * 16 + G / 16 from by omega,
      show (65536 + R * 256 + G) % 16 = G % 16 from by omega]
  rw [hexRender_step (by omega),
      show (4096 + R * 16 + G / 16) / 16 = 256 + R from by omega,
      show (4096 + R * 16 + G / 16) % 16 = G / 16 from by omega]
  rw [hexRender_step (by omega),
      show (256 + R) / 16 = 16 + R / 16 from by omega,
      show (256 + R) % 16 = R % 16 from by omega]
  rw [hexRender_step (by omega),
      show (16 + R / 16) / 16 = 1 from by omega,
      show (16 + R / 16) % 16 = R / 16 from by omega]
  rw [hexRender_lt (by omega : (1 : ℕ) < 16)]
  simp [hexByte, show Nat.digitChar 1 = '1' from by decide]


/-- A prefix test decomposes the string. -/
theorem jsStartsWith_shape : ∀ (p v : List Char), jsStartsWith v p = true → ∃ t, v = p ++ t := by
  intro p
  induction p with
  | nil => intro v _; exact ⟨v, rfl⟩
  | cons c cs ih =>
    intro v h
    match v with
    | [] => exact absurd h (by simp [jsStartsWith])
    | d :: vs =>
      have h2 : (d == c && jsStartsWith vs cs) = true := h
      simp only [Bool.and_eq_true, beq_iff_eq] at h2
      obtain ⟨rfl, h3⟩ := h2
      obtain ⟨t, rfl⟩ := ih vs h3
      exact ⟨t, rfl⟩

/-- A prefix test fails on a head mismatch. -/
theorem sw_head_false {c d : Char} (hne : ¬(c = d)) (cs ps : List Char) :
    jsStartsWith (c :: cs) (d :: ps) = false := by
  show (c == d && jsStartsWith cs ps) = false
  simp [hne]

/-- Membership in the two-character padding. -/
theorem padStart2_mem {s : List Char} {c : Char} (h : c ∈ padStart2 s) :
    c = '0' ∨ c ∈ s := by
  unfold padStart2 at h
  split_ifs at h
  · exact Or.inr h
  · rcases List.mem_append.mp h with h | h
    · exact Or.inl (List.eq_of_mem_replicate h)
    · exact Or.inr h

/-- Claim C1 (counterexample): `toHex` does not canonicalize `"#ABC"` to
`"#aabbcc"`; it returns the input unchanged. -/
theorem c1_counterexample : toHex (("#ABC").toList) ≠ some (("#aabbcc").toList) := by
  intro h
  have he : toHex (("#ABC").toList) = some (("#ABC").toList) := by
    with_unfolding_all rfl
  rw [he] at h
  exact absurd (Option.some.inj h) (by decide)

/-- Claim C1 (amended): for every input whose trimmed form starts with
`#`, `toHex` returns the trimmed input unchanged: no shorthand expansion
and no lowercasing happens on the hex branch. -/
theorem c1_hex_passthrough (s : List Char)
    (h : jsStartsWith (jsTrim s) (("#").toList) = true) :
    toHex s = some (jsTrim s) := by
  have hs : ¬(s = []) := by
    rintro rfl
    exact absurd h (by decide)
  unfold toHex
  rw [if_neg hs]
  dsimp only
  rw [if_pos h]

/-- Witness for C1's amended theorem at the concrete input `"#ABC"`. -/
theorem c1_hex_passthrough_witness :
    jsStartsWith (jsTrim (("#ABC").toList)) (("#").toList) = true ∧
      toHex (("#ABC").toList) = some (jsTrim (("#ABC").toList)) :=
  ⟨by decide, c1_hex_passthrough (("#ABC").toList) (by decide)⟩

/-- Claim C3 (counterexample): the hex -> hsl -> hex round trip is not the
identity at `"#010203"`. -/
theorem c3_counterexample :
    toHex (hexTo (("#010203").toList) (some (("hsl").toList)))
      ≠ some (("#010203").toList) := by
  intro h
  have he : toHex (hexTo (("#010203").toList) (some (("hsl").toList)))
      = some (("#010304").toList) := by
    with_unfolding_all rfl
  rw [he] at h
  exact absurd (Option.some.inj h) (by decide)

/-- Claim C3 (amended): the hsl round trip quantizes hue and percentages
to integers, so it is the identity on exactly representable colors such as
`"#ff0000"` but maps `"#010203"` to the different value `"#010304"`. -/
theorem c3_hsl_roundtrip_quantized :
    toHex (hexTo (("#ff0000").toList) (some (("hsl").toList)))
        = some (("#ff0000").toList) ∧
      toHex (hexTo (("#010203").toList) (some (("hsl").toList)))
        = some (("#010304").toList) :=
  ⟨by with_unfolding_all rfl, by with_unfolding_all rfl⟩

/-- Claim C4 (counterexample): on an input that matches no functional
prefix, is not hex and is not a known keyword, `toHex` returns the input
string itself; there is no explicit failure result. -/
theorem c4_counterexample :
    toHex (("not-a-color").toList) = some (("not-a-color").toList) := by
  with_unfolding_all rfl

/-- Claim C4 (amended): for every nonempty input whose trimmed form
matches none of the functional prefixes and misses the keyword table,
`toHex` silently returns the trimmed input unchanged. -/
theorem c4_unrecognized_passthrough (s : List Char) (hne : ¬(s = []))
    (h1 : jsStartsWith (jsTrim s) (("#").toList) = false)
    (h2 : jsStartsWith (jsTrim s) (("rgb").toList) = false)
    (h3 : jsStartsWith (jsTrim s) (("hsl").toList) = false)
    (h4 : jsStartsWith (jsTrim s) (("hwb").toList) = false)
    (h5 : jsStartsWith (jsTrim s) (("lch").toList) = false)
    (h6 : jsStartsWith (jsTrim s) (("oklch").toList) = false)
    (h7 : List.lookup (jsLower (jsTrim s)) COLOR_NAMES = none) :
    toHex s = some (jsTrim s) := by
  unfold toHex
  rw [if_neg hne]
  dsimp only
  rw [h1, h2, h3, h4, h5, h6]
  simp only [Bool.false_eq_true, if_false]
  unfold namedColorToHex
  rw [h7]
  rfl

/-- Witness for C4's amended theorem at the concrete input
`"not-a-color"`. -/
theorem c4_unrecognized_passthrough_witness :
    List.lookup (jsLower (jsTrim (("not-a-color").toList))) COLOR_NAMES = none ∧
      toHex (("not-a-color").toList) = some (jsTrim (("not-a-color").toList)) :=
  ⟨by decide,
    c4_unrecognized_passthrough (("not-a-color").toList) (by decide) (by decide)
      (by decide) (by decide) (by decide) (by decide) (by decide) (by decide)⟩

/-- Claim C5 (counterexample): `"REBECCAPURPLE"` does not convert to
`"#663399"`; the keyword is absent from the table. -/
theorem c5_counterexample :
    toHex (("REBECCAPURPLE").toList) ≠ some (("#663399").toList) := by
  intro h
  have he : toHex (("REBECCAPURPLE").toList) = some (("REBECCAPURPLE").toList) := by
    with_unfolding_all rfl
  rw [he] at h
  exact absurd (Option.some.inj h) (by decide)

/-- Claim C5 (amended): named lookup is case-insensitive and succeeds for
the keywords the table holds (`red`, also written `RED`), but
`rebeccapurple` is not in the table, so `toHex("REBECCAPURPLE")` returns
the input string unchanged. -/
theorem c5_named_lookup :
    toHex (("red").toList) = some (("#ff0000").toList) ∧
      toHex (("RED").toList) = some (("#ff0000").toList) ∧
      toHex (("REBECCAPURPLE").toList) = some (("REBECCAPURPLE").toList) :=
  ⟨by with_unfolding_all rfl, by with_unfolding_all rfl, by with_unfolding_all rfl⟩

/-- Claim C6 (counterexample): `toDoubleHex` does not saturate into
`[0,255]`: at channel value `5` it renders three digits, and an hsl input
with lightness `300%` produces an eight-digit hex string. -/
theorem c6_counterexample :
    (toDoubleHex 5).length = 3 ∧
      hslToHex (("hsl(0, 100%, 300%)").toList) = some (("#ff4fb4fb").toList) := by
  constructor
  · have he : toDoubleHex 5 = ("4fb").toList := by with_unfolding_all rfl
    rw [he]
    rfl
  · with_unfolding_all rfl

/-- Claim C6 (amended): for channel values already inside `[0,1]` the
serializer does emit exactly two lowercase hex digits; out-of-range values
are not clamped (see the counterexample). -/
theorem c6_toDoubleHex_bounded (v : ℚ) (h0 : 0 ≤ v) (h1 : v ≤ 1) :
    (toDoubleHex v).length = 2 ∧ ∀ c ∈ toDoubleHex v, isLowerHexDigit c = true := by
  have hr0 : 0 ≤ jround (v * 255) := by
    unfold jround
    exact Int.le_floor.mpr (by positivity)
  have hr255 : jround (v * 255) ≤ 255 := by
    unfold jround
    rw [Int.floor_le_iff]
    push_cast
    nlinarith
  obtain ⟨m, hm⟩ : ∃ m : ℕ, jround (v * 255) = (m : ℤ) := ⟨(jround (v * 255)).toNat, by omega⟩
  have hm256 : m < 256 := by omega
  have hrend : intHexRender (jround (v * 255)) = hexRender m := by
    unfold intHexRender
    rw [hm, if_neg (by omega : ¬((m : ℕ) : ℤ) < 0)]
    simp
  unfold toDoubleHex
  rw [hrend]
  constructor
  · exact padStart2_length (hexRender_byte_len hm256)
  · intro c hc
    rcases padStart2_mem hc with rfl | hc
    · decide
    · exact hexRender_all_lower m c hc

/-- Witness for C6's amended theorem at the concrete channel value `0`. -/
theorem c6_toDoubleHex_bounded_witness :
    ((0 : ℚ) ≤ 0 ∧ (0 : ℚ) ≤ 1) ∧
      ((toDoubleHex 0).length = 2 ∧ ∀ c ∈ toDoubleHex 0, isLowerHexDigit c = true) :=
  ⟨⟨le_refl 0, zero_le_one⟩, c6_toDoubleHex_bounded 0 (le_refl 0) zero_le_one⟩

/-- Claim C7: `hexTo` with an absent format, or any format whose lowercase
form is none of rgb, hsl, hwb, lch, oklch, name, returns the hex string
unchanged. -/
theorem c7_hexTo_identity_fallback (hex : List Char) (format : Option (List Char))
    (h : ∀ f, format = some f →
      jsLower f ∉ [("rgb").toList, ("hsl").toList, ("hwb").toList,
        ("lch").toList, ("oklch").toList, ("name").toList]) :
    hexTo hex format = hex := by
  unfold hexTo
  split_ifs with h0
  · rfl
  · cases format with
    | none => rfl
    | some f =>
      have hf := h f rfl
      simp only [List.mem_cons, List.not_mem_nil, or_false, not_or] at hf
      obtain ⟨n1, n2, n3, n4, n5, n6⟩ := hf
      dsimp only
      by_cases hfe : f = []
      · rw [if_pos hfe]
      · rw [if_neg hfe, if_neg n1, if_neg n2, if_neg n3, if_neg n4, if_neg n5, if_neg n6]

/-- Witness for C7 at the concrete unknown format `"xyz"`. -/
theorem c7_hexTo_identity_fallback_witness :
    hexTo (("#123456").toList) (some (("xyz").toList)) = ("#123456").toList :=
  c7_hexTo_identity_fallback (("#123456").toList) (some (("xyz").toList))
    (by
      intro f hf
      injection hf with hh
      subst hh
      decide)

/-- Claim C8: the OKLCH parser drops a `%` after the lightness component
without dividing by 100: both spellings extract the tokens
`[60, 0.15, 180]` and therefore convert to the same hex string. -/
theorem c8_oklch_percent_literal :
    scanNums (("oklch(60% 0.15 180)").toList) = [60, 0.15, 180] ∧
      scanNums (("oklch(60 0.15 180)").toList) = [60, 0.15, 180] ∧
      oklchToHex (("oklch(60% 0.15 180)").toList)
        = oklchToHex (("oklch(60 0.15 180)").toList) := by
  have h1 : scanNums (("oklch(60% 0.15 180)").toList) = [60, 0.15, 180] := by
    with_unfolding_all rfl
  have h2 : scanNums (("oklch(60 0.15 180)").toList) = [60, 0.15, 180] := by
    with_unfolding_all rfl
  refine ⟨h1, h2, ?_⟩
  unfold oklchToHex
  rw [h1, h2]

/-- Claim C9: every input whose trimmed form starts with `"oklch"` is
dispatched by `toHex` to the OKLCH parser (the `lch` branch never fires,
since `"oklch..."` does not start with `"lch"`). -/
theorem c9_oklch_dispatch (s : List Char)
    (h : jsStartsWith (jsTrim s) (("oklch").toList) = true) :
    toHex s = oklchToHex (jsTrim s) := by
  have hs : ¬(s = []) := by
    rintro rfl
    exact absurd h (by decide)
  obtain ⟨t, ht⟩ := jsStartsWith_shape (("oklch").toList) (jsTrim s) h
  unfold toHex
  rw [if_neg hs]
  dsimp only
  rw [ht]
  rw [show ("oklch").toList ++ t = 'o' :: 'k' :: 'l' :: 'c' :: 'h' :: t from rfl]
  have e1 : jsStartsWith ('o' :: 'k' :: 'l' :: 'c' :: 'h' :: t) (("#").toList) = false :=
    sw_head_false (by decide) _ _
  have e2 : jsStartsWith ('o' :: 'k' :: 'l' :: 'c' :: 'h' :: t) (("rgb").toList) = false :=
    sw_head_false (by decide) _ _
  have e3 : jsStartsWith ('o' :: 'k' :: 'l' :: 'c' :: 'h' :: t) (("hsl").toList) = false :=
    sw_head_false (by decide) _ _
  have e4 : jsStartsWith ('o' :: 'k' :: 'l' :: 'c' :: 'h' :: t) (("hwb").toList) = false :=
    sw_head_false (by decide) _ _
  have e5 : jsStartsWith ('o' :: 'k' :: 'l' :: 'c' :: 'h' :: t) (("lch").toList) = false :=
    sw_head_false (by decide) _ _
  rw [e1, e2, e3, e4, e5]
  simp only [Bool.false_eq_true, if_false]
  rw [ht, show ("oklch").toList ++ t = 'o' :: 'k' :: 'l' :: 'c' :: 'h' :: t from rfl] at h
  rw [if_pos h]

/-- Witness for C9 at the concrete input `"oklch(0.6 0.15 180)"`. -/
theorem c9_oklch_dispatch_witness :
    jsStartsWith (jsTrim (("oklch(0.6 0.15 180)").toList)) (("oklch").toList) = true ∧
      toHex (("oklch(0.6 0.15 180)").toList)
        = oklchToHex (jsTrim (("oklch(0.6 0.15 180)").toList)) :=
  ⟨by decide, c9_oklch_dispatch (("oklch(0.6 0.15 180)").toList) (by decide)⟩

/-- Claim C10: both falsy inputs of `hexToName` (absent and empty string)
return the keyword `"black"`. -/
theorem c10_hexToName_black (h : Option (List Char)) (hf : h = none ∨ h = some []) :
    hexToName h = ("black").toList := by
  rcases hf with rfl | rfl
  · rfl
  · rfl

/-- Witness for C10 at the absent input. -/
theorem c10_hexToName_black_witness :
    (none = (none : Option (List Char)) ∨ (none : Option (List Char)) = some []) ∧
      hexToName none = ("black").toList :=
  ⟨Or.inl rfl, c10_hexToName_black none (Or.inl rfl)⟩


/-- Trimming fixes a string with non-whitespace first and last characters
given in explicit shape. -/
theorem jsTrim_cons_concat (c : Char) (mid : List Char) (d : Char)
    (hc : jsWs c = false) (hd : jsWs d = false) :
    jsTrim (c :: (mid ++ [d])) = c :: (mid ++ [d]) := by
  unfold jsTrim
  have h1 : (c :: (mid ++ [d])).dropWhile jsWs = c :: (mid ++ [d]) :=
    dropWhile_eq_self_of_head (by
      intro x t hxt
      injection hxt with e1 _
      subst e1
      exact hc)
  rw [h1]
  have h2 : (c :: (mid ++ [d])).reverse = d :: (mid.reverse ++ [c]) := by
    simp
  rw [h2]
  rw [dropWhile_eq_self_of_head (by
    intro x t hxt
    injection hxt with e1 _
    subst e1
    exact hd)]
  rw [← h2, List.reverse_reverse]

/-- Heads of comma-space separators are neither digits nor points. -/
theorem comma_sep_head (X : List Char) (c : Char) (t : List Char)
    (hct : (", ").toList ++ X = c :: t) : c.isDigit = false ∧ ¬(c = '.') := by
  rw [show ((", ").toList ++ X) = ',' :: (' ' :: X) from rfl] at hct
  injection hct with e1 _
  subst e1
  exact ⟨by decide, by decide⟩

/-- Claim C2: for every valid 6-digit lowercase hex string, converting to
rgb functional form and back through `toHex` is exactly the identity. -/
theorem c2_rgb_roundtrip (H : List Char) (h : isValidHex6 H = true) :
    toHex (hexTo H (some (("rgb").toList))) = some H := by
  obtain ⟨R, G, B, hR, hG, hB, rfl⟩ := (validHex6_iff H).mp h
  have hne : ¬(hexOf R G B = []) := by simp [hexOf]
  have hstep1 : hexTo (hexOf R G B) (some (("rgb").toList)) = hexToRgb (hexOf R G B) := by
    unfold hexTo
    rw [if_neg hne]
    dsimp only
    rw [if_neg (show ¬(("rgb").toList = ([] : List Char)) from by decide),
        if_pos (show jsLower (("rgb").toList) = ("rgb").toList from by decide)]
  have hval : hexDigitsToNat (hexByte R ++ hexByte G ++ hexByte B)
      = R * 65536 + (G * 256 + B) := by
    have happ : ∀ l1 l2 : List Char,
        hexDigitsToNat (l1 ++ l2)
          = hexDigitsToNat l1 * 16 ^ l2.length + hexDigitsToNat l2 := by
      intro l1 l2
      show List.foldl _ 0 (l1 ++ l2) = _
      rw [List.foldl_append]
      exact hexFold l2 _
    rw [happ (hexByte R ++ hexByte G) (hexByte B), happ (hexByte R) (hexByte G),
        hexDigitsToNat_hexByte hR, hexDigitsToNat_hexByte hG, hexDigitsToNat_hexByte hB]
    simp only [hexByte, List.length_cons, List.length_nil]
    ring
  have hparse : parseHexToRgb (hexOf R G B)
      = some ((R : ℚ) / 255, (G : ℚ) / 255, (B : ℚ) / 255) := by
    unfold parseHexToRgb
    rw [if_pos (show jsStartsWith (hexOf R G B) ['#'] = true from rfl)]
    rw [show (hexOf R G B).drop 1 = hexByte R ++ hexByte G ++ hexByte B from rfl]
    rw [if_neg (show ¬((hexByte R ++ hexByte G ++ hexByte B).length = 3) from by
      simp [hexByte])]
    have hp16 : jsParseHex16 (hexByte R ++ hexByte G ++ hexByte B)
        = some (R * 65536 + (G * 256 + B)) := by
      unfold jsParseHex16
      rw [takeWhile_all _ (by
        intro c hc
        simp only [hexByte, List.cons_append, List.nil_append, List.mem_cons,
          List.not_mem_nil, or_false] at hc
        rcases hc with rfl | rfl | rfl | rfl | rfl | rfl <;>
          exact digitChar_hexCh (by omega))]
      rw [if_neg (show ¬((hexByte R ++ hexByte G ++ hexByte B).isEmpty = true) from by
        simp [hexByte])]
      rw [hval]
    rw [hp16]
    dsimp only
    have hw : toInt32 ((R * 65536 + (G * 256 + B) : ℕ) : ℚ)
        = ((R * 65536 + (G * 256 + B) : ℕ) : ℤ) := toInt32_natCast (by omega)
    rw [hw]
    have hr' : (((R * 65536 + (G * 256 + B) : ℕ) : ℤ) / 65536) % 256 = (R : ℤ) := by
      push_cast
      omega
    have hg' : (((R * 65536 + (G * 256 + B) : ℕ) : ℤ) / 256) % 256 = (G : ℤ) := by
      push_cast
      omega
    have hb' : ((R * 65536 + (G * 256 + B) : ℕ) : ℤ) % 256 = (B : ℤ) := by
      push_cast
      omega
    rw [hr', hg', hb']
    push_cast
    rfl
  have hch : ∀ n : ℕ, jround ((n : ℚ) / 255 * 255) = ((n : ℕ) : ℤ) := by
    intro n
    rw [div_mul_cancel₀ _ (by norm_num : (255 : ℚ) ≠ 0), jround_natCast]
  have hrender : hexToRgb (hexOf R G B)
      = ("rgb(").toList ++ (decRender R ++ ((", ").toList
          ++ (decRender G ++ ((", ").toList ++ (decRender B ++ [')']))))) := by
    unfold hexToRgb
    rw [hparse]
    dsimp only
    rw [hch R, hch G, hch B, intDecRender_natCast, intDecRender_natCast,
        intDecRender_natCast]
    simp [List.append_assoc]
  have hscan : scanNums (("rgb(").toList ++ (decRender R ++ ((", ").toList
      ++ (decRender G ++ ((", ").toList ++ (decRender B ++ [')']))))))
      = [(R : ℚ), (G : ℚ), (B : ℚ)] := by
    rw [scanNums_skip (("rgb(").toList) _ (by decide)]
    rw [scanNums_token (decRender R) _ (decRender_ne_nil R) (decRender_all_digit R)
      (fun c t hct => comma_sep_head _ c t hct)]
    rw [scanNums_skip ((", ").toList) _ (by decide)]
    rw [scanNums_token (decRender G) _ (decRender_ne_nil G) (decRender_all_digit G)
      (fun c t hct => comma_sep_head _ c t hct)]
    rw [scanNums_skip ((", ").toList) _ (by decide)]
    rw [scanNums_token (decRender B) _ (decRender_ne_nil B) (decRender_all_digit B)
      (by
        intro c t hct
        injection hct with e1 _
        subst e1
        exact ⟨by decide, by decide⟩)]
    rw [digitsToNat_decRender, digitsToNat_decRender, digitsToNat_decRender]
    rw [show scanNums ([')']) = [] from by decide]
  have hnums : rgbOfNums [(R : ℚ), (G : ℚ), (B : ℚ)] = some (hexOf R G B) := by
    unfold rgbOfNums
    dsimp only
    have ht32 : ∀ n : ℕ, n < 256 → toInt32 ((n : ℕ) : ℚ) = ((n : ℕ) : ℤ) :=
      fun n hn => toInt32_natCast (by omega)
    rw [ht32 R hR, ht32 G hG]
    rw [jsShl16 (by omega) (by omega), jsShl8 (by omega) (by omega)]
    have hsum : (16777216 : ℚ) + (((R : ℤ) * 65536 : ℤ) : ℚ) + (((G : ℤ) * 256 : ℤ) : ℚ)
        + (B : ℚ) = ((16777216 + (R * 65536 + (G * 256 + B)) : ℕ) : ℚ) := by
      push_cast
      ring
    rw [hsum, ratHexRender_natCast, hexRender_rgb hR hG hB]
    rfl
  have hshape : ("rgb(").toList ++ (decRender R ++ ((", ").toList
      ++ (decRender G ++ ((", ").toList ++ (decRender B ++ [')'])))))
      = 'r' :: (('g' :: 'b' :: '(' :: (decRender R ++ ((", ").toList
          ++ (decRender G ++ ((", ").toList ++ decRender B))))) ++ [')']) := by
    simp [List.append_assoc]
  rw [hstep1, hrender]
  unfold toHex
  rw [if_neg (show ¬(("rgb(").toList ++ (decRender R ++ ((", ").toList
      ++ (decRender G ++ ((", ").toList ++ (decRender B ++ [')']))))) = []) from by
    rw [hshape]; exact List.cons_ne_nil _ _)]
  dsimp only
  rw [hshape]
  rw [jsTrim_cons_concat 'r' _ ')' (by decide) (by decide)]
  have e1 : jsStartsWith ('r' :: (('g' :: 'b' :: '(' :: (decRender R ++ ((", ").toList
      ++ (decRender G ++ ((", ").toList ++ decRender B))))) ++ [')'])) (("#").toList)
      = false := sw_head_false (by decide) _ _
  rw [e1]
  simp only [Bool.false_eq_true, if_false]
  have e2 : jsStartsWith ('r' :: (('g' :: 'b' :: '(' :: (decRender R ++ ((", ").toList
      ++ (decRender G ++ ((", ").toList ++ decRender B))))) ++ [')'])) (("rgb").toList)
      = true := rfl
  rw [if_pos e2]
  unfold rgbToHex
  rw [← hshape, hscan, hnums]

/-- Witness for C2 at the concrete hex string `"#0a1b2c"`. -/
theorem c2_rgb_roundtrip_witness :
    isValidHex6 (("#0a1b2c").toList) = true ∧
      toHex (hexTo (("#0a1b2c").toList) (some (("rgb").toList)))
        = some (("#0a1b2c").toList) :=
  ⟨by decide, c2_rgb_roundtrip (("#0a1b2c").toList) (by decide)⟩

end CConv
